import Mathlib

/-!
Shallow embedding of the dozer record cache core:

* the typed field codec of dozer-types/src/types/field.rs;
* the LMDB map facade of dozer-storage/src/lmdb_map.rs and
  dozer-storage/src/lmdb_database/lmdb_val.rs;
* the cache write path of dozer-cache/src/cache/lmdb/cache/mod.rs.

Bytes are Nat values below 256. Machine integers are Nat or Int with an
explicit reduction modulo a power of two wherever overflow matters. Rust
operations that can abort the process (slice indexing out of bounds, unwrap
or expect on a missing value, copy_from_slice with mismatched lengths, the
datetime library outside its representable range) are modelled with an
explicit failure value (Option.none, DResult.panic, CacheRes.panic).
-/

/-- Big-endian byte list of a 64-bit value, as in u64::to_be_bytes and in
i64::to_be_bytes after taking the two's-complement bit pattern. -/
def beBytes8 (v : Nat) : List Nat :=
  [v / 2 ^ 56 % 256, v / 2 ^ 48 % 256, v / 2 ^ 40 % 256, v / 2 ^ 32 % 256,
   v / 2 ^ 24 % 256, v / 2 ^ 16 % 256, v / 2 ^ 8 % 256, v % 256]

/-- Big-endian byte list of a 32-bit value, as in u32::to_be_bytes. -/
def beBytes4 (v : Nat) : List Nat :=
  [v / 2 ^ 24 % 256, v / 2 ^ 16 % 256, v / 2 ^ 8 % 256, v % 256]

/-- Value of a big-endian byte list, as in u64::from_be_bytes and
u32::from_be_bytes. -/
def fromBeNat (l : List Nat) : Nat :=
  l.foldl (fun acc b => acc * 256 + b) 0

/-- Little-endian byte list of a 32-bit value (rust_decimal stores its four
internal 32-bit words little-endian in Decimal::serialize). -/
def leBytes4 (v : Nat) : List Nat :=
  [v % 256, v / 2 ^ 8 % 256, v / 2 ^ 16 % 256, v / 2 ^ 24 % 256]

/-- Value of four little-endian bytes, as read back by Decimal::deserialize. -/
def fromLe4 (b0 b1 b2 b3 : Nat) : Nat :=
  b0 + 2 ^ 8 * b1 + 2 ^ 16 * b2 + 2 ^ 24 * b3

/-- Two's-complement 64-bit pattern of an i64 value. The symbols % and / on
Int are the euclidean Int.emod and Int.ediv throughout this file; for a
positive divisor these agree with floor division, matching Rust's
div_euclid / rem_euclid that the modelled code relies on. -/
def i64Bits (i : Int) : Nat :=
  (i % (2 ^ 64 : Int)).toNat

/-- The i64 value with a given 64-bit pattern (i64::from_be_bytes composed
after the pattern has been reassembled). -/
def i64OfBits (u : Nat) : Int :=
  if u < 2 ^ 63 then (u : Int) else (u : Int) - 2 ^ 64

/-- i64::from_be_bytes on an 8-byte list. -/
def fromBeI64 (l : List Nat) : Int :=
  i64OfBits (fromBeNat l)

theorem fromBeNat_beBytes8 (v : Nat) : fromBeNat (beBytes8 v) = v % 2 ^ 64 := by
  simp only [fromBeNat, beBytes8, List.foldl]
  omega

theorem fromBeNat_beBytes4 (v : Nat) : fromBeNat (beBytes4 v) = v % 2 ^ 32 := by
  simp only [fromBeNat, beBytes4, List.foldl]
  omega

theorem fromBeI64_beBytes8_i64Bits (i : Int) (h1 : -(2 ^ 63) ≤ i) (h2 : i < 2 ^ 63) :
    fromBeI64 (beBytes8 (i64Bits i)) = i := by
  simp only [fromBeI64, fromBeNat_beBytes8, i64Bits, i64OfBits]
  split <;> omega

/-- Continuation byte of a multi-byte UTF-8 sequence: 0x80 to 0xBF. -/
def isCont (b : Nat) : Bool :=
  128 ≤ b && b ≤ 191

/-- Range constraint on the first continuation byte of a multi-byte UTF-8
sequence, depending on the lead byte (this excludes overlong forms,
surrogates and values above U+10FFFF, exactly as std::str::from_utf8 does). -/
def utf8FirstContOk (b c1 : Nat) : Bool :=
  if b = 224 then 160 ≤ c1 && c1 ≤ 191
  else if b = 237 then 128 ≤ c1 && c1 ≤ 159
  else if b = 240 then 144 ≤ c1 && c1 ≤ 191
  else if b = 244 then 128 ≤ c1 && c1 ≤ 143
  else isCont c1

/-- Validity of a byte list as UTF-8, as checked by std::str::from_utf8:
strict UTF-8, rejecting overlong forms, surrogates and values above
U+10FFFF. A lead byte announces 1 to 3 continuation bytes, which must all
be present and in range. -/
def validUtf8 : List Nat → Bool
  | [] => true
  | b :: rest =>
    if b ≤ 127 then validUtf8 rest
    else if b < 194 then false
    else if 245 ≤ b then false
    else
      let need : Nat := if b ≤ 223 then 1 else if b ≤ 239 then 2 else 3
      if rest.length < need then false
      else
        utf8FirstContOk b (rest.headD 0) && ((rest.take need).drop 1).all isCont
          && validUtf8 (rest.drop need)
termination_by l => l.length
decreasing_by all_goals (simp only [List.length_cons, List.length_drop]; omega)

theorem validUtf8_of_ascii (l : List Nat) (h : ∀ b ∈ l, b ≤ 127) : validUtf8 l = true := by
  induction l with
  | nil => rw [validUtf8]
  | cons b rest ih =>
    have hb : b ≤ 127 := h b (List.mem_cons_self b rest)
    rw [validUtf8]
    rw [if_pos hb]
    exact ih fun x hx => h x (List.mem_cons_of_mem b hx)

/-- ASCII decimal digit byte. -/
def isDigit (b : Nat) : Bool :=
  48 ≤ b && b ≤ 57

/-- Decimal digit bytes of a natural number, most significant first, as
printed by the standard integer formatter. -/
def natDigits (n : Nat) : List Nat :=
  if h : n < 10 then [48 + n]
  else natDigits (n / 10) ++ [48 + n % 10]
decreasing_by exact Nat.div_lt_self (by omega) (by omega)

/-- Zero-pad a digit list on the left to four digits, as chrono's year
formatter does for the %Y specifier. -/
def padTo4 (ds : List Nat) : List Nat :=
  List.replicate (4 - ds.length) 48 ++ ds

/-- The four ASCII digits of a number below 10000. -/
def pad4Digits (n : Nat) : List Nat :=
  [48 + n / 1000 % 10, 48 + n / 100 % 10, 48 + n / 10 % 10, 48 + n % 10]

theorem padTo4_natDigits (n : Nat) (h : n ≤ 9999) : padTo4 (natDigits n) = pad4Digits n := by
  rcases Nat.lt_or_ge n 10 with h1 | h1
  · rw [natDigits, dif_pos h1]
    show [48, 48, 48, 48 + n] = pad4Digits n
    simp only [pad4Digits, List.cons.injEq, and_true]
    omega
  rcases Nat.lt_or_ge n 100 with h2 | h2
  · rw [natDigits, dif_neg (by omega), natDigits, dif_pos (by omega)]
    show [48, 48, 48 + n / 10, 48 + n % 10] = pad4Digits n
    simp only [pad4Digits, List.cons.injEq, and_true]
    omega
  rcases Nat.lt_or_ge n 1000 with h3 | h3
  · rw [natDigits, dif_neg (by omega), natDigits, dif_neg (by omega), natDigits,
      dif_pos (by omega)]
    show [48, 48 + n / 10 / 10, 48 + n / 10 % 10, 48 + n % 10] = pad4Digits n
    simp only [pad4Digits, List.cons.injEq, and_true]
    omega
  · rw [natDigits, dif_neg (by omega), natDigits, dif_neg (by omega), natDigits,
      dif_neg (by omega), natDigits, dif_pos (by omega)]
    show [48 + n / 10 / 10 / 10, 48 + n / 10 / 10 % 10, 48 + n / 10 % 10, 48 + n % 10] =
      pad4Digits n
    simp only [pad4Digits, List.cons.injEq, and_true]
    omega

/-- Bytes of NaiveDate's Display implementation (format %Y-%m-%d), per
chrono: the year zero-padded to four digits, years above 9999 prefixed with
a plus sign and printed unpadded, negative years with a minus sign and the
absolute value padded to four digits; month and day zero-padded to two
digits. -/
def dateBytes (y : Int) (m d : Nat) : List Nat :=
  (if y < 0 then 45 :: padTo4 (natDigits y.natAbs)
   else if y ≤ 9999 then padTo4 (natDigits y.toNat)
   else 43 :: natDigits y.toNat)
  ++ 45 :: [48 + m / 10 % 10, 48 + m % 10] ++ 45 :: [48 + d / 10 % 10, 48 + d % 10]

/-- Proleptic Gregorian leap year, as in chrono. -/
def isLeapYear (y : Int) : Bool :=
  (y % 4 = 0 && y % 100 ≠ 0) || y % 400 = 0

/-- Days in a month of the proleptic Gregorian calendar. -/
def daysInMonth (y : Int) (m : Nat) : Nat :=
  if m = 2 then (if isLeapYear y then 29 else 28)
  else if m = 4 || m = 6 || m = 9 || m = 11 then 30
  else 31

/-- Validity of a (year, month, day) triple as a chrono NaiveDate: chrono
represents years -262144 to 262143. -/
def validDate (y : Int) (m d : Nat) : Bool :=
  decide (-262144 ≤ y) && decide (y ≤ 262143) && decide (1 ≤ m) && decide (m ≤ 12)
    && decide (1 ≤ d) && decide (d ≤ daysInMonth y m)

/-- Consume leading ASCII digit bytes, accumulating their value. -/
def readDigits : List Nat → Nat → Nat × List Nat
  | b :: rest, acc => if isDigit b then readDigits rest (acc * 10 + (b - 48)) else (acc, b :: rest)
  | [], acc => (acc, [])

/-- Read an unsigned decimal number: at least one digit must be present. -/
def parseNum (l : List Nat) : Option (Nat × List Nat) :=
  match l with
  | b :: _ => if isDigit b then some (readDigits l 0) else none
  | [] => none

/-- Year-month-day body of date parsing: digits, hyphen, digits, hyphen,
digits, end of input, then the range validity check NaiveDate performs. -/
def parseDateBody (neg : Bool) (l : List Nat) : Option (Int × Nat × Nat) :=
  match parseNum l with
  | none => none
  | some (yn, l2) =>
    match l2 with
    | [] => none
    | h1 :: l3 =>
      if h1 = 45 then
        match parseNum l3 with
        | none => none
        | some (mn, l4) =>
          match l4 with
          | [] => none
          | h2 :: l5 =>
            if h2 = 45 then
              match parseNum l5 with
              | none => none
              | some (dn, l6) =>
                if l6 = [] then
                  let y : Int := if neg then -(yn : Int) else (yn : Int)
                  if validDate y mn dn then some (y, mn, dn) else none
                else none
            else none
      else none

/-- Modelled after chrono NaiveDate::parse_from_str with format %Y-%m-%d
(the parse used by the Date arm of decoding): an optionally signed year
number, a hyphen, a month number, a hyphen, a day number, consuming the
whole input, with the resulting triple checked to be a representable date. -/
def parseDate (l : List Nat) : Option (Int × Nat × Nat) :=
  match l with
  | [] => none
  | b0 :: r0 =>
    if b0 = 43 then parseDateBody false r0
    else if b0 = 45 then parseDateBody true r0
    else parseDateBody false l

theorem isDigit_of_le9 (k : Nat) (h : k ≤ 9) : isDigit (48 + k) = true := by
  simp only [isDigit, Bool.and_eq_true, decide_eq_true_eq]
  omega

theorem daysInMonth_le (y : Int) (m : Nat) : daysInMonth y m ≤ 31 := by
  unfold daysInMonth
  split
  · split <;> omega
  · split <;> omega

theorem readDigits_append (ds rest : List Nat) (acc : Nat)
    (hds : ∀ b ∈ ds, isDigit b = true)
    (hrest : rest = [] ∨ ∃ b r, rest = b :: r ∧ isDigit b = false) :
    readDigits (ds ++ rest) acc = (ds.foldl (fun a b => a * 10 + (b - 48)) acc, rest) := by
  induction ds generalizing acc with
  | nil =>
    rcases hrest with h | ⟨b, r, hbr, hb⟩
    · subst h; rfl
    · subst hbr
      simp only [List.nil_append, List.foldl_nil, readDigits, hb]
      rfl
  | cons d t ih =>
    have hd : isDigit d = true := hds d (List.mem_cons_self d t)
    simp only [List.cons_append, readDigits, hd, if_true, List.foldl_cons, ite_true]
    exact ih (acc * 10 + (d - 48)) (fun b hb => hds b (List.mem_cons_of_mem d hb))

theorem parseNum_pad (d0 : Nat) (dt rest : List Nat) (v : Nat)
    (hall : ∀ b ∈ d0 :: dt, isDigit b = true)
    (hrest : rest = [] ∨ ∃ b r, rest = b :: r ∧ isDigit b = false)
    (hval : (d0 :: dt).foldl (fun a b => a * 10 + (b - 48)) 0 = v) :
    parseNum ((d0 :: dt) ++ rest) = some (v, rest) := by
  have hrd : readDigits ((d0 :: dt) ++ rest) 0 = (v, rest) := by
    rw [readDigits_append _ _ _ hall hrest, hval]
  have hd0 : isDigit d0 = true := hall d0 (List.mem_cons_self d0 dt)
  show (if isDigit d0 then some (readDigits ((d0 :: dt) ++ rest) 0) else none)
      = some (v, rest)
  simp only [hd0, if_true, ite_true, hrd]

theorem dateBytes_flat (y : Int) (m d : Nat) (hy0 : 0 ≤ y) (hy : y ≤ 9999) :
    dateBytes y m d
      = (48 + y.toNat / 1000 % 10) :: (48 + y.toNat / 100 % 10) :: (48 + y.toNat / 10 % 10)
        :: (48 + y.toNat % 10) :: 45 :: (48 + m / 10 % 10) :: (48 + m % 10)
        :: 45 :: (48 + d / 10 % 10) :: (48 + d % 10) :: [] := by
  unfold dateBytes
  rw [if_neg (by omega), if_pos (by omega), padTo4_natDigits _ (by omega)]
  rfl

theorem parseDate_dateBytes (y : Int) (m d : Nat)
    (hv : validDate y m d = true) (hy0 : 0 ≤ y) (hy : y ≤ 9999) :
    parseDate (dateBytes y m d) = some (y, m, d) := by
  have hconj := hv
  simp only [validDate, Bool.and_eq_true, decide_eq_true_eq] at hconj
  obtain ⟨⟨⟨⟨⟨-, -⟩, hm1⟩, hm12⟩, hd1⟩, hdm⟩ := hconj
  have hd31 : d ≤ 31 := le_trans hdm (daysInMonth_le y m)
  have hn : ((y.toNat : Int)) = y := by omega
  have hn9999 : y.toNat ≤ 9999 := by omega
  rw [dateBytes_flat y m d hy0 hy]
  generalize ha1 : 48 + y.toNat / 1000 % 10 = a1
  generalize ha2 : 48 + y.toNat / 100 % 10 = a2
  generalize ha3 : 48 + y.toNat / 10 % 10 = a3
  generalize ha4 : 48 + y.toNat % 10 = a4
  generalize hb1 : 48 + m / 10 % 10 = b1
  generalize hb2 : 48 + m % 10 = b2
  generalize hc1 : 48 + d / 10 % 10 = c1
  generalize hc2 : 48 + d % 10 = c2
  have da1 : isDigit a1 = true := ha1 ▸ isDigit_of_le9 _ (by omega)
  have da2 : isDigit a2 = true := ha2 ▸ isDigit_of_le9 _ (by omega)
  have da3 : isDigit a3 = true := ha3 ▸ isDigit_of_le9 _ (by omega)
  have da4 : isDigit a4 = true := ha4 ▸ isDigit_of_le9 _ (by omega)
  have db1 : isDigit b1 = true := hb1 ▸ isDigit_of_le9 _ (by omega)
  have db2 : isDigit b2 = true := hb2 ▸ isDigit_of_le9 _ (by omega)
  have dc1 : isDigit c1 = true := hc1 ▸ isDigit_of_le9 _ (by omega)
  have dc2 : isDigit c2 = true := hc2 ▸ isDigit_of_le9 _ (by omega)
  have hyphen : isDigit 45 = false := by rfl
  have hp1 : parseNum (a1 :: a2 :: a3 :: a4 :: 45 :: b1 :: b2 :: 45 :: c1 :: c2 :: ([] : List Nat))
      = some (y.toNat, 45 :: b1 :: b2 :: 45 :: c1 :: c2 :: []) := by
    show parseNum ([a1, a2, a3, a4] ++ (45 :: b1 :: b2 :: 45 :: c1 :: c2 :: [])) = _
    refine parseNum_pad _ _ _ _ ?_ (Or.inr ⟨45, _, rfl, hyphen⟩) ?_
    · intro b hb
      simp only [List.mem_cons, List.not_mem_nil, or_false] at hb
      rcases hb with h | h | h | h <;> subst h <;> assumption
    · simp only [List.foldl_cons, List.foldl_nil]
      omega
  have hp2 : parseNum (b1 :: b2 :: 45 :: c1 :: c2 :: ([] : List Nat))
      = some (m, 45 :: c1 :: c2 :: []) := by
    show parseNum ([b1, b2] ++ (45 :: c1 :: c2 :: [])) = _
    refine parseNum_pad _ _ _ _ ?_ (Or.inr ⟨45, _, rfl, hyphen⟩) ?_
    · intro b hb
      simp only [List.mem_cons, List.not_mem_nil, or_false] at hb
      rcases hb with h | h <;> subst h <;> assumption
    · simp only [List.foldl_cons, List.foldl_nil]
      omega
  have hp3 : parseNum (c1 :: c2 :: ([] : List Nat)) = some (d, []) := by
    show parseNum ([c1, c2] ++ ([] : List Nat)) = _
    refine parseNum_pad _ _ _ _ ?_ (Or.inl rfl) ?_
    · intro b hb
      simp only [List.mem_cons, List.not_mem_nil, or_false] at hb
      rcases hb with h | h <;> subst h <;> assumption
    · simp only [List.foldl_cons, List.foldl_nil]
      omega
  unfold parseDate
  dsimp only
  rw [if_neg (by omega), if_neg (by omega)]
  unfold parseDateBody
  rw [hp1]
  dsimp only
  rw [if_pos rfl, hp2]
  dsimp only
  rw [if_pos rfl, hp3]
  dsimp only
  rw [if_pos rfl]
  rw [if_neg Bool.false_ne_true]
  rw [hn]
  rw [if_pos hv]

/-- Seconds since the epoch of the earliest instant chrono can represent
(year -262144, January 1, midnight), computed in the proleptic Gregorian
calendar. -/
def chronoMinSecs : Int := -8334632851200

/-- Seconds since the epoch of the start of the last second chrono can
represent (year 262143, December 31, 23:59:59). -/
def chronoMaxSecs : Int := 8210298412799

/-- Smallest millisecond count accepted by Utc.timestamp_millis. -/
def chronoMinMillis : Int := chronoMinSecs * 1000

/-- Largest millisecond count accepted by Utc.timestamp_millis. -/
def chronoMaxMillis : Int := chronoMaxSecs * 1000 + 999

/-- Nanoseconds since the epoch of the earliest chrono instant. -/
def chronoMinNanos : Int := chronoMinMillis * 1000000

/-- Nanoseconds since the epoch of the latest chrono instant. -/
def chronoMaxNanos : Int := chronoMaxMillis * 1000000 + 999999

namespace Dozer

/-- The field type tags, mirroring enum FieldType of field.rs. The Rust
enum has no payloads; it only names the twelve variants. -/
inductive FieldType
  | UInt
  | Int
  | Float
  | Boolean
  | String
  | Text
  | Binary
  | Decimal
  | Timestamp
  | Date
  | Bson
  | Null
deriving DecidableEq

/-- The Field value type of field.rs. Payload representations:

* UInt carries the u64 value, Int the i64 value;
* Float carries the 64-bit IEEE-754 pattern of the OrderedFloat f64 (the
  codec moves the bits unchanged, and bit equality implies the Rust
  equality, so working on patterns is exact for round-trip statements);
* String and Text carry the UTF-8 bytes of the Rust String;
* Binary and Bson carry their raw bytes;
* Decimal carries the four 32-bit words flags, lo, mid, hi that
  rust_decimal serializes;
* Timestamp carries the UTC instant in nanoseconds since the epoch; chrono
  equality on DateTime with FixedOffset compares only the instant, never
  the offset, so the offset is dropped (it influences neither encoding nor
  equality; leap-second carrier representations are not modelled);
* Date carries the (year, month, day) triple of the NaiveDate. -/
inductive Field
  | UInt (v : Nat)
  | Int (v : Int)
  | Float (bits : Nat)
  | Boolean (b : Bool)
  | String (bytes : List Nat)
  | Text (bytes : List Nat)
  | Binary (bytes : List Nat)
  | Decimal (flags lo mid hi : Nat)
  | Timestamp (nanos : Int)
  | Date (y : Int) (m d : Nat)
  | Bson (bytes : List Nat)
  | Null
deriving DecidableEq

/-- The FieldBorrow value type of field.rs: the same twelve variants with
borrowed instead of owned payloads; in the model the payloads coincide. -/
inductive FieldBorrow
  | UInt (v : Nat)
  | Int (v : Int)
  | Float (bits : Nat)
  | Boolean (b : Bool)
  | String (bytes : List Nat)
  | Text (bytes : List Nat)
  | Binary (bytes : List Nat)
  | Decimal (flags lo mid hi : Nat)
  | Timestamp (nanos : Int)
  | Date (y : Int) (m d : Nat)
  | Bson (bytes : List Nat)
  | Null
deriving DecidableEq

/-- The decoding errors of DeserializationError that field decoding can
produce. The Utf8 variant wraps the std Utf8Error (payload dropped). -/
inductive DeserializationError
  | EmptyInput
  | UnrecognisedFieldType (tag : Nat)
  | BadDataLength
  | Utf8
deriving DecidableEq

/-- Outcome of running a decoding function: a value, a recoverable error,
or a process abort (Rust panic). -/
inductive DResult (α : Type)
  | ok (val : α)
  | error (e : DeserializationError)
  | panic
deriving DecidableEq

/-- DResult functorial map (Result::map only touches the ok value). -/
def DResult.map (f : α → β) : DResult α → DResult β
  | .ok a => .ok (f a)
  | .error e => .error e
  | .panic => .panic

/-- Field::data_encoding_len. -/
def Field.data_encoding_len : Field → Nat
  | .Int _ => 8
  | .UInt _ => 8
  | .Float _ => 8
  | .Boolean _ => 1
  | .String s => s.length
  | .Text s => s.length
  | .Binary b => b.length
  | .Decimal _ _ _ _ => 16
  | .Timestamp _ => 8
  | .Date _ _ _ => 10
  | .Bson b => b.length
  | .Null => 0

/-- Field::encode_data. Timestamp encodes timestamp_millis(), the floor of
the instant in milliseconds, as i64 big-endian; Date encodes the Display
form of the NaiveDate; Decimal encodes Decimal::serialize, its four 32-bit
words little-endian. -/
def Field.encode_data : Field → List Nat
  | .Int i => beBytes8 (i64Bits i)
  | .UInt v => beBytes8 v
  | .Float bits => beBytes8 bits
  | .Boolean b => [if b then 1 else 0]
  | .String s => s
  | .Text s => s
  | .Binary b => b
  | .Decimal flags lo mid hi => leBytes4 flags ++ leBytes4 lo ++ leBytes4 mid ++ leBytes4 hi
  | .Timestamp nanos => beBytes8 (i64Bits (nanos / 1000000))
  | .Date y m d => dateBytes y m d
  | .Bson b => b
  | .Null => []

/-- Field::get_type. -/
def Field.get_type : Field → FieldType
  | .Int _ => .Int
  | .UInt _ => .UInt
  | .Float _ => .Float
  | .Boolean _ => .Boolean
  | .String _ => .String
  | .Text _ => .Text
  | .Binary _ => .Binary
  | .Decimal _ _ _ _ => .Decimal
  | .Timestamp _ => .Timestamp
  | .Date _ _ _ => .Date
  | .Bson _ => .Bson
  | .Null => .Null

/-- The type tag byte of a field type (source name: get_type_prefix). -/
def typeTag : FieldType → Nat
  | .Int => 0
  | .UInt => 1
  | .Float => 2
  | .Boolean => 3
  | .String => 4
  | .Text => 5
  | .Binary => 6
  | .Decimal => 7
  | .Timestamp => 8
  | .Date => 9
  | .Bson => 10
  | .Null => 11

/-- The field type of a tag byte (source name: type_from_prefix). -/
def typeFromTag (tag : Nat) : Option FieldType :=
  if tag = 0 then some .Int
  else if tag = 1 then some .UInt
  else if tag = 2 then some .Float
  else if tag = 3 then some .Boolean
  else if tag = 4 then some .String
  else if tag = 5 then some .Text
  else if tag = 6 then some .Binary
  else if tag = 7 then some .Decimal
  else if tag = 8 then some .Timestamp
  else if tag = 9 then some .Date
  else if tag = 10 then some .Bson
  else if tag = 11 then some .Null
  else none

/-- Field::encoding_len. -/
def Field.encoding_len (f : Field) : Nat :=
  Field.data_encoding_len f + 1

/-- Field::encode: a buffer of encoding_len bytes is allocated, the tag is
written first and encode_buf copies encode_data into the remainder with
copy_from_slice, which aborts when the data length is not exactly
data_encoding_len; the abort is the None outcome. -/
def Field.encode (f : Field) : Option (List Nat) :=
  if (Field.encode_data f).length = Field.data_encoding_len f then
    some (typeTag (Field.get_type f) :: Field.encode_data f)
  else none

/-- Field::borrow. -/
def Field.borrow : Field → FieldBorrow
  | .Int i => .Int i
  | .UInt v => .UInt v
  | .Float bits => .Float bits
  | .Boolean b => .Boolean b
  | .String s => .String s
  | .Text s => .Text s
  | .Binary b => .Binary b
  | .Decimal flags lo mid hi => .Decimal flags lo mid hi
  | .Timestamp nanos => .Timestamp nanos
  | .Date y m d => .Date y m d
  | .Bson b => .Bson b
  | .Null => .Null

/-- FieldBorrow::to_owned. -/
def FieldBorrow.to_owned : FieldBorrow → Field
  | .Int i => .Int i
  | .UInt v => .UInt v
  | .Float bits => .Float bits
  | .Boolean b => .Boolean b
  | .String s => .String s
  | .Text s => .Text s
  | .Binary b => .Binary b
  | .Decimal flags lo mid hi => .Decimal flags lo mid hi
  | .Timestamp nanos => .Timestamp nanos
  | .Date y m d => .Date y m d
  | .Bson b => .Bson b
  | .Null => .Null

/-- Field::decode_borrow. Branches follow the source:

* empty input and unknown tags give the corresponding errors;
* fixed-width payloads are length-checked by try_into (BadDataLength);
* the Boolean arm indexes val with 0 without a length check, an abort on an
  empty payload;
* String and Text run the UTF-8 check of std::str::from_utf8;
* the Timestamp arm rebuilds the instant with the aborting
  Utc.timestamp_millis, which requires the millisecond count inside
  chrono's representable range;
* the Date arm parses with format %Y-%m-%d and unwraps, an abort when the
  payload is not a valid date. -/
def Field.decode_borrow (buf : List Nat) : DResult FieldBorrow :=
  match buf with
  | [] => .error .EmptyInput
  | first :: val =>
    match typeFromTag first with
    | none => .error (.UnrecognisedFieldType first)
    | some t =>
      match t with
      | .Int =>
        if val.length = 8 then .ok (.Int (fromBeI64 val)) else .error .BadDataLength
      | .UInt =>
        if val.length = 8 then .ok (.UInt (fromBeNat val)) else .error .BadDataLength
      | .Float =>
        if val.length = 8 then .ok (.Float (fromBeNat val)) else .error .BadDataLength
      | .Boolean =>
        match val with
        | [] => .panic
        | b :: _ => .ok (.Boolean (b == 1))
      | .String =>
        if validUtf8 val then .ok (.String val) else .error .Utf8
      | .Text =>
        if validUtf8 val then .ok (.Text val) else .error .Utf8
      | .Binary => .ok (.Binary val)
      | .Decimal =>
        match val with
        | [b0, b1, b2, b3, b4, b5, b6, b7, b8, b9, b10, b11, b12, b13, b14, b15] =>
          .ok (.Decimal (fromLe4 b0 b1 b2 b3) (fromLe4 b4 b5 b6 b7)
            (fromLe4 b8 b9 b10 b11) (fromLe4 b12 b13 b14 b15))
        | _ => .error .BadDataLength
      | .Timestamp =>
        if val.length = 8 then
          if chronoMinMillis ≤ fromBeI64 val ∧ fromBeI64 val ≤ chronoMaxMillis then
            .ok (.Timestamp (fromBeI64 val * 1000000))
          else .panic
        else .error .BadDataLength
      | .Date =>
        if validUtf8 val then
          match parseDate val with
          | some (y, m, d) => .ok (.Date y m d)
          | none => .panic
        else .error .Utf8
      | .Bson => .ok (.Bson val)
      | .Null => .ok .Null

/-- Field::decode. -/
def Field.decode (buf : List Nat) : DResult Field :=
  DResult.map FieldBorrow.to_owned (Field.decode_borrow buf)

/-- Representability of a model Field as an actual Rust value: u64 and
f64-pattern payloads fit in 64 bits, i64 payloads in the two's-complement
range, String and Text hold valid UTF-8 (the Rust String invariant), byte
payloads are bytes, Decimal words fit in 32 bits, Timestamp instants and
Dates lie in chrono's representable ranges. -/
def Field.wf : Field → Bool
  | .UInt v => decide (v < 2 ^ 64)
  | .Int i => decide (-(2 ^ 63) ≤ i ∧ i < 2 ^ 63)
  | .Float bits => decide (bits < 2 ^ 64)
  | .Boolean _ => true
  | .String s => validUtf8 s
  | .Text s => validUtf8 s
  | .Binary b => b.all (fun x => decide (x < 256))
  | .Decimal flags lo mid hi =>
    decide (flags < 2 ^ 32 ∧ lo < 2 ^ 32 ∧ mid < 2 ^ 32 ∧ hi < 2 ^ 32)
  | .Timestamp nanos => decide (chronoMinNanos ≤ nanos ∧ nanos ≤ chronoMaxNanos)
  | .Date y m d => validDate y m d
  | .Bson b => b.all (fun x => decide (x < 256))
  | .Null => true

/-- Domain on which the round-trip law holds: representable fields whose
Timestamp instant is a whole number of milliseconds and whose Date year
prints as exactly four digits. -/
def Field.roundtrippable (f : Field) : Bool :=
  Field.wf f &&
    (match f with
     | .Timestamp nanos => decide (nanos % 1000000 = 0)
     | .Date y _ _ => decide (0 ≤ y ∧ y ≤ 9999)
     | _ => true)

/-- C1 (amended): for every representable Field value whose Timestamp
instant is a whole number of milliseconds and whose Date year prints as
four digits, decoding the encoding yields the value back:
decode (encode f) = ok f. (The unamended claim fails: Timestamp instants
with sub-millisecond components are truncated by the millisecond encoding,
and Date years outside 0 to 9999 make the encoder abort.) -/
theorem field_decode_encode_roundtrip (f : Field) (h : Field.roundtrippable f = true) :
    ∃ bs, Field.encode f = some bs ∧ Field.decode bs = DResult.ok f := by
  have hwf : Field.wf f = true := by
    simp only [Field.roundtrippable, Bool.and_eq_true] at h
    exact h.1
  cases f with
  | UInt v =>
    simp only [Field.wf, decide_eq_true_eq] at hwf
    refine ⟨1 :: beBytes8 v, rfl, ?_⟩
    show DResult.ok (Field.UInt (fromBeNat (beBytes8 v))) = DResult.ok (Field.UInt v)
    rw [fromBeNat_beBytes8, Nat.mod_eq_of_lt hwf]
  | Int i =>
    simp only [Field.wf, decide_eq_true_eq] at hwf
    refine ⟨0 :: beBytes8 (i64Bits i), rfl, ?_⟩
    show DResult.ok (Field.Int (fromBeI64 (beBytes8 (i64Bits i)))) = DResult.ok (Field.Int i)
    rw [fromBeI64_beBytes8_i64Bits i hwf.1 hwf.2]
  | Float bits =>
    simp only [Field.wf, decide_eq_true_eq] at hwf
    refine ⟨2 :: beBytes8 bits, rfl, ?_⟩
    show DResult.ok (Field.Float (fromBeNat (beBytes8 bits))) = DResult.ok (Field.Float bits)
    rw [fromBeNat_beBytes8, Nat.mod_eq_of_lt hwf]
  | Boolean b =>
    cases b with
    | false => exact ⟨[3, 0], rfl, rfl⟩
    | true => exact ⟨[3, 1], rfl, rfl⟩
  | String s =>
    simp only [Field.wf] at hwf
    refine ⟨4 :: s, ?_, ?_⟩
    · show (if s.length = s.length then some ((4 : Nat) :: s) else none) = some ((4 : Nat) :: s)
      rw [if_pos rfl]
    · show DResult.map FieldBorrow.to_owned
        (if validUtf8 s = true then DResult.ok (FieldBorrow.String s)
         else DResult.error DeserializationError.Utf8) = DResult.ok (Field.String s)
      rw [if_pos hwf]
      rfl
  | Text s =>
    simp only [Field.wf] at hwf
    refine ⟨5 :: s, ?_, ?_⟩
    · show (if s.length = s.length then some ((5 : Nat) :: s) else none) = some ((5 : Nat) :: s)
      rw [if_pos rfl]
    · show DResult.map FieldBorrow.to_owned
        (if validUtf8 s = true then DResult.ok (FieldBorrow.Text s)
         else DResult.error DeserializationError.Utf8) = DResult.ok (Field.Text s)
      rw [if_pos hwf]
      rfl
  | Binary b =>
    refine ⟨6 :: b, ?_, rfl⟩
    show (if b.length = b.length then some ((6 : Nat) :: b) else none) = some ((6 : Nat) :: b)
    rw [if_pos rfl]
  | Decimal flags lo mid hi =>
    simp only [Field.wf, decide_eq_true_eq] at hwf
    obtain ⟨hf, hl, hm, hh⟩ := hwf
    refine ⟨7 :: (leBytes4 flags ++ leBytes4 lo ++ leBytes4 mid ++ leBytes4 hi), rfl, ?_⟩
    show DResult.ok (Field.Decimal
        (fromLe4 (flags % 256) (flags / 2 ^ 8 % 256) (flags / 2 ^ 16 % 256) (flags / 2 ^ 24 % 256))
        (fromLe4 (lo % 256) (lo / 2 ^ 8 % 256) (lo / 2 ^ 16 % 256) (lo / 2 ^ 24 % 256))
        (fromLe4 (mid % 256) (mid / 2 ^ 8 % 256) (mid / 2 ^ 16 % 256) (mid / 2 ^ 24 % 256))
        (fromLe4 (hi % 256) (hi / 2 ^ 8 % 256) (hi / 2 ^ 16 % 256) (hi / 2 ^ 24 % 256)))
      = DResult.ok (Field.Decimal flags lo mid hi)
    have e1 : fromLe4 (flags % 256) (flags / 2 ^ 8 % 256) (flags / 2 ^ 16 % 256)
        (flags / 2 ^ 24 % 256) = flags := by
      simp only [fromLe4]; omega
    have e2 : fromLe4 (lo % 256) (lo / 2 ^ 8 % 256) (lo / 2 ^ 16 % 256)
        (lo / 2 ^ 24 % 256) = lo := by
      simp only [fromLe4]; omega
    have e3 : fromLe4 (mid % 256) (mid / 2 ^ 8 % 256) (mid / 2 ^ 16 % 256)
        (mid / 2 ^ 24 % 256) = mid := by
      simp only [fromLe4]; omega
    have e4 : fromLe4 (hi % 256) (hi / 2 ^ 8 % 256) (hi / 2 ^ 16 % 256)
        (hi / 2 ^ 24 % 256) = hi := by
      simp only [fromLe4]; omega
    rw [e1, e2, e3, e4]
  | Timestamp nanos =>
    simp only [Field.roundtrippable, Field.wf, Bool.and_eq_true, decide_eq_true_eq] at h
    obtain ⟨⟨hlo, hhi⟩, hms⟩ := h
    have hrange : -(2 ^ 63) ≤ nanos / 1000000 ∧ nanos / 1000000 < 2 ^ 63 ∧
        chronoMinMillis ≤ nanos / 1000000 ∧ nanos / 1000000 ≤ chronoMaxMillis := by
      simp only [chronoMinNanos, chronoMaxNanos, chronoMinMillis, chronoMaxMillis,
        chronoMinSecs, chronoMaxSecs] at hlo hhi ⊢
      omega
    have hdec : fromBeI64 (beBytes8 (i64Bits (nanos / 1000000))) = nanos / 1000000 :=
      fromBeI64_beBytes8_i64Bits _ hrange.1 hrange.2.1
    refine ⟨8 :: beBytes8 (i64Bits (nanos / 1000000)), rfl, ?_⟩
    show DResult.map FieldBorrow.to_owned
        (if chronoMinMillis ≤ fromBeI64 (beBytes8 (i64Bits (nanos / 1000000))) ∧
            fromBeI64 (beBytes8 (i64Bits (nanos / 1000000))) ≤ chronoMaxMillis then
          DResult.ok (FieldBorrow.Timestamp
            (fromBeI64 (beBytes8 (i64Bits (nanos / 1000000))) * 1000000))
         else DResult.panic) = DResult.ok (Field.Timestamp nanos)
    rw [hdec, if_pos ⟨hrange.2.2.1, hrange.2.2.2⟩]
    have hmul : nanos / 1000000 * 1000000 = nanos := by omega
    show DResult.ok (Field.Timestamp (nanos / 1000000 * 1000000)) = _
    rw [hmul]
  | Date y m d =>
    simp only [Field.roundtrippable, Field.wf, Bool.and_eq_true, decide_eq_true_eq] at h
    obtain ⟨hvd, hy0, hy⟩ := h
    have hflat := dateBytes_flat y m d hy0 hy
    have hlen : (dateBytes y m d).length = 10 := by rw [hflat]; rfl
    have hascii : validUtf8 (dateBytes y m d) = true := by
      rw [hflat]
      refine validUtf8_of_ascii _ ?_
      intro b hb
      simp only [List.mem_cons, List.not_mem_nil, or_false] at hb
      rcases hb with h | h | h | h | h | h | h | h | h | h <;> omega
    have hparse := parseDate_dateBytes y m d hvd hy0 hy
    refine ⟨9 :: dateBytes y m d, ?_, ?_⟩
    · show (if (dateBytes y m d).length = 10 then some ((9 : Nat) :: dateBytes y m d) else none)
        = some ((9 : Nat) :: dateBytes y m d)
      rw [if_pos hlen]
    · show DResult.map FieldBorrow.to_owned
        (if validUtf8 (dateBytes y m d) = true then
          (match parseDate (dateBytes y m d) with
           | some (y, m, d) => DResult.ok (FieldBorrow.Date y m d)
           | none => DResult.panic)
         else DResult.error DeserializationError.Utf8) = DResult.ok (Field.Date y m d)
      rw [if_pos hascii, hparse]
      rfl
  | Bson b =>
    refine ⟨10 :: b, ?_, rfl⟩
    show (if b.length = b.length then some ((10 : Nat) :: b) else none) = some ((10 : Nat) :: b)
    rw [if_pos rfl]
  | Null => exact ⟨[11], rfl, rfl⟩

set_option maxRecDepth 8000 in
/-- C1 (counterexample): the Timestamp one nanosecond past the epoch is a
representable DateTime value, yet decoding its encoding yields the
truncated instant zero, a different value; and Date year 10000 is a
representable NaiveDate whose encoding aborts instead of succeeding. -/
theorem field_roundtrip_counterexample :
    Field.wf (Field.Timestamp 1) = true
    ∧ (Field.encode (Field.Timestamp 1)).map Field.decode
        = some (DResult.ok (Field.Timestamp 0))
    ∧ Field.Timestamp 0 ≠ Field.Timestamp 1
    ∧ Field.wf (Field.Date 10000 1 1) = true
    ∧ Field.encode (Field.Date 10000 1 1) = none := by
  refine ⟨by decide, by decide, by decide, by decide, ?_⟩
  simp [Field.encode, Field.encode_data, Field.data_encoding_len, dateBytes, natDigits]

/-- C1 (witness): the amended round-trip theorem applied at the field
UInt 42. -/
theorem field_decode_encode_roundtrip_witness :
    Field.roundtrippable (Field.UInt 42) = true
    ∧ ∃ bs, Field.encode (Field.UInt 42) = some bs
        ∧ Field.decode bs = DResult.ok (Field.UInt 42) :=
  ⟨by decide, field_decode_encode_roundtrip (Field.UInt 42) (by decide)⟩

/-- C5: decoding is not total on malformed inputs — a Boolean-tagged input
with empty payload makes decode_borrow and decode abort through
out-of-bounds slice indexing, and a Date-tagged input whose payload is not
a valid date aborts through unwrap, instead of returning one of the
recoverable decoding errors. -/
theorem decode_panics_on_malformed_input :
    Field.decode_borrow [3] = DResult.panic
    ∧ Field.decode [3] = DResult.panic
    ∧ Field.decode_borrow [9, 97] = DResult.panic
    ∧ Field.decode [9, 97] = DResult.panic := by
  have hval : Field.decode_borrow [9, 97] = DResult.panic := by
    simp [Field.decode_borrow, typeFromTag, validUtf8, parseDate, parseDateBody, parseNum,
      isDigit]
  exact ⟨rfl, rfl, hval, by rw [Field.decode, hval]; rfl⟩

/-- Date fields whose year prints as exactly four digits (the regime in
which the normative 10-byte Date payload length is accurate); every other
variant trivially qualifies. -/
def Field.dateYear4 : Field → Bool
  | .Date y _ _ => decide (0 ≤ y ∧ y ≤ 9999)
  | _ => true

theorem field_encode_of_len (f : Field)
    (hl : (Field.encode_data f).length = Field.data_encoding_len f) :
    ∃ bs, Field.encode f = some bs ∧ bs.length = Field.encoding_len f
      ∧ Field.encoding_len f = Field.data_encoding_len f + 1 := by
  refine ⟨typeTag (Field.get_type f) :: Field.encode_data f, ?_, ?_, rfl⟩
  · unfold Field.encode
    rw [if_pos hl]
  · simp only [List.length_cons, hl, Field.encoding_len]

/-- C6 (amended): for every representable Field whose Date year prints as
four digits, encoding succeeds and produces exactly encoding_len f bytes,
where encoding_len f = 1 + data_encoding_len f and data_encoding_len
follows the normative payload table (8 bytes for Int, UInt, Float and
Timestamp, 1 for Boolean, 16 for Decimal, 10 for Date, the byte length of
the content for String, Text, Binary and Bson, 0 for Null). (The unamended
claim fails: a Date year outside 0 to 9999 prints with more than four
digits and the encoder aborts.) -/
theorem field_encode_length (f : Field) (hwf : Field.wf f = true)
    (hy : Field.dateYear4 f = true) :
    ∃ bs, Field.encode f = some bs ∧ bs.length = Field.encoding_len f
      ∧ Field.encoding_len f = Field.data_encoding_len f + 1 := by
  cases f with
  | Date y m d =>
    simp only [Field.dateYear4, decide_eq_true_eq] at hy
    refine field_encode_of_len _ ?_
    show (dateBytes y m d).length = 10
    rw [dateBytes_flat y m d hy.1 hy.2]
    rfl
  | UInt v => exact field_encode_of_len _ rfl
  | Int i => exact field_encode_of_len _ rfl
  | Float bits => exact field_encode_of_len _ rfl
  | Boolean b => exact field_encode_of_len _ rfl
  | String s => exact field_encode_of_len _ rfl
  | Text s => exact field_encode_of_len _ rfl
  | Binary b => exact field_encode_of_len _ rfl
  | Decimal flags lo mid hi => exact field_encode_of_len _ rfl
  | Timestamp nanos => exact field_encode_of_len _ rfl
  | Bson b => exact field_encode_of_len _ rfl
  | Null => exact field_encode_of_len _ rfl

/-- C6 (counterexample): Date year 10000 with month and day 1 is a
representable NaiveDate, yet its encoding aborts — encode does not succeed
with a 1 + 10 byte string. -/
theorem field_encode_length_counterexample :
    Field.wf (Field.Date 10000 1 1) = true
    ∧ Field.encode (Field.Date 10000 1 1) = none := by
  refine ⟨by decide, ?_⟩
  simp [Field.encode, Field.encode_data, Field.data_encoding_len, dateBytes, natDigits]

/-- C6 (witness): the amended length theorem applied at a concrete date. -/
theorem field_encode_length_witness :
    Field.wf (Field.Date 2020 1 1) = true
    ∧ Field.dateYear4 (Field.Date 2020 1 1) = true
    ∧ ∃ bs, Field.encode (Field.Date 2020 1 1) = some bs
        ∧ bs.length = Field.encoding_len (Field.Date 2020 1 1)
        ∧ Field.encoding_len (Field.Date 2020 1 1)
            = Field.data_encoding_len (Field.Date 2020 1 1) + 1 :=
  ⟨by decide, by decide, field_encode_length (Field.Date 2020 1 1) (by decide) (by decide)⟩

/-- C10: the owning decoder equals the borrowing decoder mapped through
to_owned on every input, and borrowing a field and then owning the borrow
is the identity. -/
theorem decode_agrees_with_decode_borrow :
    (∀ bs : List Nat,
      Field.decode bs = DResult.map FieldBorrow.to_owned (Field.decode_borrow bs))
    ∧ ∀ f : Field, FieldBorrow.to_owned (Field.borrow f) = f :=
  ⟨fun _ => rfl, fun f => by cases f <;> rfl⟩

/-- LmdbMap (lmdb_map.rs) modelled as an association list of key-value
pairs over the decoded view of keys and values: the Encode and Decode
implementations of lmdb_val.rs are injective, with decode inverting encode
(identity on byte slices, big-endian bytes for u32 and u64, bincode for
records), so the typed association is exact for get, insert, remove, clear
and extend, none of which depends on LMDB's sorted iteration order. -/
abbrev LmdbMap (κ ν : Type) : Type := List (κ × ν)

/-- Transaction::get through LmdbMap::get: the binding of the key, if any. -/
def LmdbMap.get [DecidableEq κ] : LmdbMap κ ν → κ → Option ν
  | [], _ => none
  | (k0, v0) :: t, k => if k = k0 then some v0 else LmdbMap.get t k

/-- LmdbMap::insert: a put with WriteFlags::NO_OVERWRITE, returning the new
map and whether the key was actually inserted; the KeyExist outcome maps to
false with the map unchanged. -/
def LmdbMap.insert [DecidableEq κ] (m : LmdbMap κ ν) (k : κ) (v : ν) : LmdbMap κ ν × Bool :=
  match LmdbMap.get m k with
  | some _ => (m, false)
  | none => (m ++ [(k, v)], true)

/-- Removal of a key's entry from the association list. -/
def LmdbMap.eraseKey [DecidableEq κ] : LmdbMap κ ν → κ → LmdbMap κ ν
  | [], _ => []
  | (k0, v0) :: t, k => if k = k0 then t else (k0, v0) :: LmdbMap.eraseKey t k

/-- LmdbMap::remove: del, with the NotFound outcome mapping to false. -/
def LmdbMap.remove [DecidableEq κ] (m : LmdbMap κ ν) (k : κ) : LmdbMap κ ν × Bool :=
  match LmdbMap.get m k with
  | none => (m, false)
  | some _ => (LmdbMap.eraseKey m k, true)

/-- LmdbMap::clear: clear_db empties the sub-database. -/
def LmdbMap.clear (_ : LmdbMap κ ν) : LmdbMap κ ν := []

/-- LmdbMap::extend: insert every pair of the iterator in order; keys that
already exist are ignored (NO_OVERWRITE). -/
def LmdbMap.extend [DecidableEq κ] (m : LmdbMap κ ν) (l : List (κ × ν)) : LmdbMap κ ν :=
  l.foldl (fun acc kv => (LmdbMap.insert acc kv.1 kv.2).1) m

theorem LmdbMap.get_append [DecidableEq κ] (m1 m2 : LmdbMap κ ν) (k : κ) :
    LmdbMap.get (m1 ++ m2) k
      = match LmdbMap.get m1 k with
        | some v => some v
        | none => LmdbMap.get m2 k := by
  induction m1 with
  | nil => rfl
  | cons p t ih =>
    obtain ⟨k0, v0⟩ := p
    by_cases h : k = k0
    · simp [LmdbMap.get, h]
    · simp [LmdbMap.get, h, ih]

/-- C7: LmdbMap::insert with NO_OVERWRITE — when the key is absent it
returns true and adds the pair, after which the key maps to the value and
every other key is unchanged; when the key is present it returns false and
leaves the map, in particular the value previously stored under the key,
unchanged. -/
theorem lmdb_map_insert_no_overwrite {κ ν : Type} [DecidableEq κ]
    (m : LmdbMap κ ν) (k : κ) (v : ν) :
    (LmdbMap.get m k = none →
      LmdbMap.insert m k v = (m ++ [(k, v)], true)
      ∧ LmdbMap.get (LmdbMap.insert m k v).1 k = some v
      ∧ ∀ k2, k2 ≠ k → LmdbMap.get (LmdbMap.insert m k v).1 k2 = LmdbMap.get m k2)
    ∧ ∀ w, LmdbMap.get m k = some w →
      LmdbMap.insert m k v = (m, false)
      ∧ LmdbMap.get (LmdbMap.insert m k v).1 k = some w := by
  constructor
  · intro habs
    have heq : LmdbMap.insert m k v = (m ++ [(k, v)], true) := by
      unfold LmdbMap.insert
      rw [habs]
    refine ⟨heq, ?_, ?_⟩
    · rw [heq, LmdbMap.get_append, habs]
      show (if k = k then some v else LmdbMap.get [] k) = some v
      rw [if_pos rfl]
    · intro k2 hk2
      rw [heq, LmdbMap.get_append]
      cases hg : LmdbMap.get m k2 with
      | some w => rfl
      | none =>
        show (if k2 = k then some v else LmdbMap.get [] k2) = none
        rw [if_neg hk2]
        rfl
  · intro w hw
    have heq : LmdbMap.insert m k v = (m, false) := by
      unfold LmdbMap.insert
      rw [hw]
    exact ⟨heq, by rw [heq]; exact hw⟩

/-- C7 (witness): the no-overwrite theorem applied at the concrete map of
the source's own test: with key [1] bound to [2], inserting [3] under the
fresh key [2] succeeds and inserting [3] under the existing key [1] is
refused with the map unchanged. -/
theorem lmdb_map_insert_no_overwrite_witness :
    LmdbMap.get (LmdbMap.insert ([([1], [2])] : LmdbMap (List Nat) (List Nat)) [2] [3]).1 [2]
        = some [3]
    ∧ LmdbMap.insert ([([1], [2])] : LmdbMap (List Nat) (List Nat)) [1] [3]
        = ([([1], [2])], false) :=
  ⟨((lmdb_map_insert_no_overwrite ([([1], [2])] : LmdbMap (List Nat) (List Nat)) [2] [3]).1
      (by decide)).2.1,
   ((lmdb_map_insert_no_overwrite ([([1], [2])] : LmdbMap (List Nat) (List Nat)) [1] [3]).2
      [2] (by decide)).1⟩

/-- The key-type declaration LmdbValType of lmdb_val.rs, as compiled for a
64-bit target (the U64 variant exists only under target_pointer_width 64). -/
inductive LmdbValType
  | U32
  | U64
  | FixedSizeOtherThanU32OrUsize
  | VariableSize
deriving DecidableEq

/-- The database creation flag relevant to key comparison: INTEGER_KEY
selects the store's native-endian integer comparator, empty the default
byte-wise comparator. -/
inductive DatabaseFlags
  | INTEGER_KEY
  | empty
deriving DecidableEq

/-- database_key_flag of lmdb_map.rs, with the target_pointer_width 64 arm
of the match included; LmdbMap::new_from_env and new_from_txn pass this
flag of the key type when creating the sub-database. -/
def database_key_flag : LmdbValType → DatabaseFlags
  | .U32 => .INTEGER_KEY
  | .U64 => .INTEGER_KEY
  | .FixedSizeOtherThanU32OrUsize => .empty
  | .VariableSize => .empty

/-- LmdbKey::TYPE for u64 on a 64-bit target. -/
def u64LmdbKeyType : LmdbValType := .U64

/-- LmdbKey::TYPE for u32. -/
def u32LmdbKeyType : LmdbValType := .U32

/-- Encode::encode for u64: to_be_bytes. -/
def u64Encode (v : Nat) : List Nat := beBytes8 v

/-- Encode::encode for u32: to_be_bytes. -/
def u32Encode (v : Nat) : List Nat := beBytes4 v

/-- C9: u64 and u32 keys are emitted in big-endian byte order — eight,
respectively four, bytes with the most significant first, reassembling
big-endian to the original value — while database_key_flag hands the store
the INTEGER_KEY flag, the native-endian integer comparator, for both
integer key types on a 64-bit target: the documented endianness quirk,
reproduced bit-exactly (258 encodes with its high byte 1 before its low
byte 2). -/
theorem integer_keys_big_endian_with_integer_flag :
    database_key_flag u64LmdbKeyType = DatabaseFlags.INTEGER_KEY
    ∧ database_key_flag u32LmdbKeyType = DatabaseFlags.INTEGER_KEY
    ∧ (∀ v : Nat, (u64Encode v).length = 8 ∧ fromBeNat (u64Encode v) = v % 2 ^ 64)
    ∧ (∀ v : Nat, (u32Encode v).length = 4 ∧ fromBeNat (u32Encode v) = v % 2 ^ 32)
    ∧ u64Encode 258 = [0, 0, 0, 0, 0, 0, 1, 2]
    ∧ u32Encode 258 = [0, 0, 1, 2] :=
  ⟨rfl, rfl, fun v => ⟨rfl, fromBeNat_beBytes8 v⟩, fun v => ⟨rfl, fromBeNat_beBytes4 v⟩,
    by decide, by decide⟩

/-- SchemaIdentifier: a 32-bit id with a 16-bit version. -/
abbrev SchemaIdentifier := Nat × Nat

/-- IndexDefinition: SortedInverted over a list of field positions, or
FullText over one field position. -/
inductive IndexDefinition
  | SortedInverted (fields : List Nat)
  | FullText (field : Nat)
deriving DecidableEq

/-- The schema data the modelled cache operations read: its identifier and
its primary_index, the ordered list of field positions forming the primary
key. The field descriptors of the Rust Schema are consulted only by
debug_check_schema_record_consistency, whose debug_assert calls are
compiled out of release builds and are not modelled. -/
structure Schema where
  identifier : Option SchemaIdentifier
  primary_index : List Nat
deriving DecidableEq

/-- Record of dozer-types: schema id, field values and version counter
(a u32 in Rust). -/
structure Record where
  schema_id : Option SchemaIdentifier
  values : List Field
  version : Option Nat
deriving DecidableEq

/-- The CacheError variants reachable in the modelled operations. -/
inductive CacheError
  | PrimaryKeyNotFound
  | PrimaryKeyExists
  | SchemaHasNoIdentifier
  | SchemaIdentifierNotFound (id : SchemaIdentifier)
deriving DecidableEq

/-- Outcome of a cache operation: a value, a recoverable CacheError, or a
process abort (Rust panic). -/
inductive CacheRes (α : Type)
  | ok (val : α)
  | error (e : CacheError)
  | panic
deriving DecidableEq

/-- The mutable state of an LmdbRwCache inside its shared write
transaction: the schema database, the primary-key map, the id allocator
counter, the record store, the secondary-index multimaps and the
checkpoint store. Modelled from the spec for the parts whose sources are
not in the repository snapshot: section 4.4 keeps the next free record id
under a reserved sentinel key of the primary-key map, distinct from every
legal encoded primary key, so it is carried as a separate field; the
checkpoint store holds NodeHandle bytes against encoded OpIdentifier
bytes. -/
structure RwCacheState where
  schemas : LmdbMap SchemaIdentifier (Schema × List IndexDefinition)
  primary_key_to_record_id : LmdbMap (List Nat) Nat
  next_id : Nat
  record_id_to_record : LmdbMap Nat Record
  secondary_indexes : LmdbMap (SchemaIdentifier × Nat) (List (List Nat × Nat))
  checkpoint_db : LmdbMap (List Nat) (List Nat)
deriving DecidableEq

/-- INITIAL_RECORD_VERSION of cache/mod.rs. -/
def INITIAL_RECORD_VERSION : Nat := 1

/-- Modelled from the spec: get_primary_key (the source file
dozer-cache/src/cache/index.rs is not under src). Section 3.3: the primary
key is the concatenation of the encoded fields named by primary_index, in
order; none when a named position is out of range or a field encoding
aborts. -/
def getPrimaryKey (primaryIndex : List Nat) (values : List Field) : Option (List Nat) :=
  (primaryIndex.mapM (fun i => values[i]? >>= Field.encode)).map List.flatten

/-- Modelled from the spec: get_or_generate_id (the source file
id_database.rs is not under src). Section 4.4: when primary-key bytes are
supplied and already bound, return the bound id; otherwise return the
counter, bind the primary-key bytes (if any) to it, and advance the
counter, a u64. -/
def getOrGenerateId (st : RwCacheState) (pk : Option (List Nat)) : Nat × RwCacheState :=
  match pk with
  | some key =>
    match LmdbMap.get st.primary_key_to_record_id key with
    | some id => (id, st)
    | none =>
      (st.next_id,
       { st with
          primary_key_to_record_id :=
            (LmdbMap.insert st.primary_key_to_record_id key st.next_id).1,
          next_id := (st.next_id + 1) % 2 ^ 64 })
  | none => (st.next_id, { st with next_id := (st.next_id + 1) % 2 ^ 64 })

/-- ASCII lowercasing of one byte. -/
def asciiLower (b : Nat) : Nat :=
  if 65 ≤ b ∧ b ≤ 90 then b + 32 else b

/-- ASCII whitespace byte. -/
def isWhitespaceByte (b : Nat) : Bool :=
  b == 32 || b == 9 || b == 10 || b == 11 || b == 12 || b == 13

/-- Modelled from the spec: FullText tokenisation (the source file
indexer.rs is not under src). Section 4.6: split the text on whitespace
and lowercase each token. -/
def tokenize : List Nat → List (List Nat)
  | [] => []
  | b :: r =>
    if isWhitespaceByte b then tokenize r
    else ((b :: r).takeWhile (fun x => !isWhitespaceByte x)).map asciiLower
        :: tokenize (r.dropWhile (fun x => !isWhitespaceByte x))
termination_by l => l.length
decreasing_by
  all_goals simp only [List.length_cons]
  · omega
  · exact Nat.lt_succ_of_le (List.Sublist.length_le (List.dropWhile_sublist _))

/-- Modelled from the spec: the index keys one record contributes to one
index (indexer.rs is not under src). Section 4.6: SortedInverted emits one
key, the concatenation of the encoded named fields; FullText emits the
UTF-8 bytes of each token of its String or Text field. -/
def indexKeys (idx : IndexDefinition) (values : List Field) : Option (List (List Nat)) :=
  match idx with
  | .SortedInverted fields =>
    (fields.mapM (fun i => values[i]? >>= Field.encode)).map (fun encs => [encs.flatten])
  | .FullText i =>
    values[i]? >>= fun f =>
      match f with
      | .String bs => some (tokenize bs)
      | .Text bs => some (tokenize bs)
      | _ => none

/-- LmdbMultimap::insert for one (key, record id) pair: a set of pairs. -/
def multimapInsert (pairs : List (List Nat × Nat)) (k : List Nat) (id : Nat) :
    List (List Nat × Nat) :=
  if (k, id) ∈ pairs then pairs else pairs ++ [(k, id)]

/-- LmdbMultimap::remove for one (key, record id) pair. -/
def multimapRemove (pairs : List (List Nat × Nat)) (k : List Nat) (id : Nat) :
    List (List Nat × Nat) :=
  pairs.filter (fun p => p ≠ (k, id))

/-- Overwrite-style store into a map (the secondary-index databases
pre-exist; updating one rebinds its entry). -/
def LmdbMap.setEntry [DecidableEq κ] (m : LmdbMap κ ν) (k : κ) (v : ν) : LmdbMap κ ν :=
  LmdbMap.eraseKey m k ++ [(k, v)]

/-- Modelled from the spec: Indexer::build_indexes (indexer.rs is not under
src). Section 4.6: for each index definition, derive the key set and
insert each (key, record id) pair into the multimap identified by the
schema id and the index position. -/
def buildIndexesAux (values : List Field) (sid : SchemaIdentifier) (id : Nat) :
    List IndexDefinition → Nat → RwCacheState → Option RwCacheState
  | [], _, st => some st
  | idx :: rest, i, st =>
    match indexKeys idx values with
    | none => none
    | some keys =>
      let old := (LmdbMap.get st.secondary_indexes (sid, i)).getD []
      let updated := keys.foldl (fun acc k => multimapInsert acc k id) old
      buildIndexesAux values sid id rest (i + 1)
        { st with secondary_indexes := LmdbMap.setEntry st.secondary_indexes (sid, i) updated }

def buildIndexes (st : RwCacheState) (r : Record) (sid : SchemaIdentifier)
    (sidx : List IndexDefinition) (id : Nat) : Option RwCacheState :=
  buildIndexesAux r.values sid id sidx 0 st

/-- Modelled from the spec: Indexer::delete_indexes — remove the same
(key, record id) pairs (section 4.6). -/
def deleteIndexesAux (values : List Field) (sid : SchemaIdentifier) (id : Nat) :
    List IndexDefinition → Nat → RwCacheState → Option RwCacheState
  | [], _, st => some st
  | idx :: rest, i, st =>
    match indexKeys idx values with
    | none => none
    | some keys =>
      let old := (LmdbMap.get st.secondary_indexes (sid, i)).getD []
      let updated := keys.foldl (fun acc k => multimapRemove acc k id) old
      deleteIndexesAux values sid id rest (i + 1)
        { st with secondary_indexes := LmdbMap.setEntry st.secondary_indexes (sid, i) updated }

def deleteIndexes (st : RwCacheState) (r : Record) (sid : SchemaIdentifier)
    (sidx : List IndexDefinition) (id : Nat) : Option RwCacheState :=
  deleteIndexesAux r.values sid id sidx 0 st

/-- get_schema_and_indexes_from_record of cache/mod.rs: the record must
carry a schema id registered in the schema database. The body's
debug_check_schema_record_consistency is all debug_assert calls, compiled
out of release builds. -/
def getSchemaAndIndexes (st : RwCacheState) (r : Record) :
    CacheRes (SchemaIdentifier × Schema × List IndexDefinition) :=
  match r.schema_id with
  | none => .error .SchemaHasNoIdentifier
  | some sid =>
    match LmdbMap.get st.schemas sid with
    | none => .error (.SchemaIdentifierNotFound sid)
    | some (schema, sidx) => .ok (sid, schema, sidx)

/-- The id step of LmdbRwCache::insert_impl: with an empty primary_index
the id is generated unconstrained, otherwise the primary key is computed
with get_primary_key and looked up or bound; none is the abort of
primary-key encoding. -/
def allocateId (st : RwCacheState) (schema : Schema) (values : List Field) :
    Option (Nat × RwCacheState) :=
  if schema.primary_index = [] then some (getOrGenerateId st none)
  else (getPrimaryKey schema.primary_index values).map
    (fun pk => getOrGenerateId st (some pk))

/-- LmdbRwCache::insert_impl: allocate or look up the record id (by
primary key when the schema has one), insert the record no-overwrite —
a present record id is the PrimaryKeyExists error — then build the
secondary indexes. -/
def insertImpl (st : RwCacheState) (r : Record) (sid : SchemaIdentifier)
    (schema : Schema) (sidx : List IndexDefinition) : CacheRes (Nat × RwCacheState) :=
  match allocateId st schema r.values with
  | none => .panic
  | some (id, st1) =>
    match LmdbMap.insert st1.record_id_to_record id r with
    | (_, false) => .error .PrimaryKeyExists
    | (m, true) =>
      match buildIndexes { st1 with record_id_to_record := m } r sid sidx id with
      | none => .panic
      | some st2 => .ok (id, st2)

/-- RwCache::insert for LmdbRwCache: look up the schema, stamp the record
with INITIAL_RECORD_VERSION, and run insert_impl. -/
def cacheInsert (st : RwCacheState) (r : Record) : CacheRes (Nat × RwCacheState) :=
  match getSchemaAndIndexes st r with
  | .error e => .error e
  | .panic => .panic
  | .ok (sid, schema, sidx) =>
    insertImpl st { r with version := some INITIAL_RECORD_VERSION } sid schema sidx

/-- RoCache::get on the write cache: primary-key map lookup, then record
store lookup; either lookup missing is the recoverable PrimaryKeyNotFound
error. -/
def cacheGet (st : RwCacheState) (key : List Nat) : CacheRes (Nat × Record) :=
  match LmdbMap.get st.primary_key_to_record_id key with
  | none => .error .PrimaryKeyNotFound
  | some id =>
    match LmdbMap.get st.record_id_to_record id with
    | none => .error .PrimaryKeyNotFound
    | some rec => .ok (id, rec)

/-- LmdbRwCache::delete_impl: get the record, look up its schema, remove
it from the record store — a failed removal right after the successful get
is the panic with message "We just got this key from the map" — delete its
index entries, and return the prior version, whose absence is the expect
panic "All records in cache should have a version". The primary-key
binding is left in place. -/
def deleteImpl (st : RwCacheState) (key : List Nat) :
    CacheRes (SchemaIdentifier × Schema × List IndexDefinition × Nat × RwCacheState) :=
  match cacheGet st key with
  | .error e => .error e
  | .panic => .panic
  | .ok (id, rec) =>
    match getSchemaAndIndexes st rec with
    | .error e => .error e
    | .panic => .panic
    | .ok (sid, schema, sidx) =>
      match LmdbMap.remove st.record_id_to_record id with
      | (_, false) => .panic
      | (m, true) =>
        match deleteIndexes { st with record_id_to_record := m } rec sid sidx id with
        | none => .panic
        | some st2 =>
          match rec.version with
          | none => .panic
          | some v => .ok (sid, schema, sidx, v, st2)

/-- RwCache::delete: delete_impl, returning the prior version. -/
def cacheDelete (st : RwCacheState) (key : List Nat) : CacheRes (Nat × RwCacheState) :=
  match deleteImpl st key with
  | .error e => .error e
  | .panic => .panic
  | .ok (_, _, _, v, st1) => .ok (v, st1)

/-- RwCache::update: delete_impl, then insert_impl of the new record
stamped with the incremented version — a u32 addition, reduced modulo
2 to the 32 — returning the prior version. -/
def cacheUpdate (st : RwCacheState) (key : List Nat) (r : Record) :
    CacheRes (Nat × RwCacheState) :=
  match deleteImpl st key with
  | .error e => .error e
  | .panic => .panic
  | .ok (sid, schema, sidx, old_version, st1) =>
    match insertImpl st1 { r with version := some ((old_version + 1) % 2 ^ 32) }
        sid schema sidx with
    | .error e => .error e
    | .panic => .panic
    | .ok (_, st2) => .ok (old_version, st2)

/-- NodeHandle, a variable-length binary identifier of a pipeline source
(dozer-types/src/node.rs is not under src; modelled from the spec,
section 4.8), carried as its to_bytes image. -/
abbrev NodeHandle := List Nat

/-- OpIdentifier: the (txid, seq) pair of u64 values. -/
structure OpIdentifier where
  txid : Nat
  seq : Nat
deriving DecidableEq

/-- Modelled from the spec: OpIdentifier::to_bytes — the 16-byte image of
the pair (section 4.8), big-endian words. -/
def OpIdentifier.to_bytes (op : OpIdentifier) : List Nat :=
  beBytes8 op.txid ++ beBytes8 op.seq

/-- Modelled from the spec: OpIdentifier::from_bytes on a 16-byte image. -/
def OpIdentifier.from_bytes (bs : List Nat) : OpIdentifier :=
  ⟨fromBeNat (bs.take 8), fromBeNat (bs.drop 8)⟩

/-- SourceStates: the checkpoint contents, a map from NodeHandle to
OpIdentifier (a HashMap in Rust; carried as a list of bindings whose
iteration order is immaterial to the map it denotes). -/
abbrev SourceStates := List (NodeHandle × OpIdentifier)

/-- RwCache::commit for LmdbRwCache: clear the checkpoint store, extend it
with the encoded checkpoint entries, and commit the write transaction
(durability is outside the model). -/
def cacheCommit (st : RwCacheState) (checkpoint : SourceStates) : RwCacheState :=
  { st with
      checkpoint_db :=
        LmdbMap.extend (LmdbMap.clear st.checkpoint_db)
          (checkpoint.map (fun e => (e.1, OpIdentifier.to_bytes e.2))) }

/-- RwCache::get_checkpoint: iterate the checkpoint store, decoding each
binding. -/
def getCheckpoint (st : RwCacheState) : SourceStates :=
  st.checkpoint_db.map (fun e => (e.1, OpIdentifier.from_bytes e.2))

theorem LmdbMap.insert_true [DecidableEq κ] {m m' : LmdbMap κ ν} {k : κ} {v : ν}
    (h : LmdbMap.insert m k v = (m', true)) :
    LmdbMap.get m' k = some v := by
  unfold LmdbMap.insert at h
  cases hg : LmdbMap.get m k with
  | some w =>
    rw [hg] at h
    simp at h
  | none =>
    rw [hg] at h
    obtain ⟨rfl, -⟩ : m ++ [(k, v)] = m' ∧ True := by
      refine ⟨congrArg Prod.fst h, trivial⟩
    rw [LmdbMap.get_append, hg]
    show (if k = k then some v else LmdbMap.get [] k) = some v
    rw [if_pos rfl]

theorem LmdbMap.remove_present [DecidableEq κ] {m : LmdbMap κ ν} {k : κ} {w : ν}
    (h : LmdbMap.get m k = some w) :
    LmdbMap.remove m k = (LmdbMap.eraseKey m k, true) := by
  unfold LmdbMap.remove
  rw [h]

theorem buildIndexesAux_preserves (values : List Field) (sid : SchemaIdentifier) (id : Nat) :
    ∀ (l : List IndexDefinition) (i : Nat) (st st' : RwCacheState),
      buildIndexesAux values sid id l i st = some st' →
      st'.record_id_to_record = st.record_id_to_record
      ∧ st'.primary_key_to_record_id = st.primary_key_to_record_id
      ∧ st'.next_id = st.next_id
      ∧ st'.schemas = st.schemas
      ∧ st'.checkpoint_db = st.checkpoint_db := by
  intro l
  induction l with
  | nil =>
    intro i st st' h
    unfold buildIndexesAux at h
    cases h
    exact ⟨rfl, rfl, rfl, rfl, rfl⟩
  | cons idx rest ih =>
    intro i st st' h
    unfold buildIndexesAux at h
    cases hk : indexKeys idx values with
    | none =>
      rw [hk] at h
      cases h
    | some keys =>
      rw [hk] at h
      dsimp only at h
      have hrec := ih (i + 1) _ _ h
      simpa using hrec

theorem insertImpl_ok (st : RwCacheState) (r : Record) (sid : SchemaIdentifier)
    (schema : Schema) (sidx : List IndexDefinition) (id : Nat) (st' : RwCacheState)
    (h : insertImpl st r sid schema sidx = CacheRes.ok (id, st')) :
    LmdbMap.get st'.record_id_to_record id = some r := by
  unfold insertImpl at h
  rcases halloc : allocateId st schema r.values with - | ⟨id1, st1⟩
  · rw [halloc] at h
    exact CacheRes.noConfusion h
  · rw [halloc] at h
    dsimp only at h
    rcases hins : LmdbMap.insert st1.record_id_to_record id1 r with ⟨m, added⟩
    rw [hins] at h
    cases added with
    | false =>
      dsimp only at h
      exact CacheRes.noConfusion h
    | true =>
      dsimp only at h
      rcases hbuild : buildIndexes { st1 with record_id_to_record := m } r sid sidx id1
        with - | st2
      · rw [hbuild] at h
        exact CacheRes.noConfusion h
      · rw [hbuild] at h
        dsimp only at h
        simp only [CacheRes.ok.injEq, Prod.mk.injEq] at h
        obtain ⟨rfl, rfl⟩ := h
        unfold buildIndexes at hbuild
        have hpres := buildIndexesAux_preserves r.values sid id1 sidx 0 _ _ hbuild
        rw [hpres.1]
        exact LmdbMap.insert_true hins

theorem cacheGet_ok (st : RwCacheState) (key : List Nat) (id : Nat) (rec : Record)
    (h : cacheGet st key = CacheRes.ok (id, rec)) :
    LmdbMap.get st.primary_key_to_record_id key = some id
    ∧ LmdbMap.get st.record_id_to_record id = some rec := by
  unfold cacheGet at h
  rcases hid : LmdbMap.get st.primary_key_to_record_id key with - | id0
  · rw [hid] at h
    exact CacheRes.noConfusion h
  · rw [hid] at h
    dsimp only at h
    rcases hrec : LmdbMap.get st.record_id_to_record id0 with - | rec0
    · rw [hrec] at h
      exact CacheRes.noConfusion h
    · rw [hrec] at h
      dsimp only at h
      simp only [CacheRes.ok.injEq, Prod.mk.injEq] at h
      obtain ⟨rfl, rfl⟩ := h
      exact ⟨rfl, hrec⟩

/-- C2 (amended): a record successfully inserted through RwCache::insert is
stored with version exactly 1; a successful update(key, record) returns the
prior stored version v and stores the record with version (v + 1) reduced
modulo 2 to the 32, which is exactly v + 1 whenever v is below the u32
maximum 4294967295. (The unamended claim fails at v = 4294967295, where the
u32 increment wraps the stored version to 0.) -/
theorem insert_version_one_update_increments :
    (∀ (st : RwCacheState) (r : Record) (id : Nat) (st' : RwCacheState),
      cacheInsert st r = CacheRes.ok (id, st') →
      LmdbMap.get st'.record_id_to_record id = some { r with version := some 1 })
    ∧ ∀ (st : RwCacheState) (key : List Nat) (r rec : Record) (id v v' : Nat)
        (st' : RwCacheState),
        cacheGet st key = CacheRes.ok (id, rec) → rec.version = some v →
        v < 4294967295 →
        cacheUpdate st key r = CacheRes.ok (v', st') →
        v' = v ∧ ∃ id2, LmdbMap.get st'.record_id_to_record id2
            = some { r with version := some (v + 1) } := by
  constructor
  · intro st r id st' h
    unfold cacheInsert at h
    rcases hsch : getSchemaAndIndexes st r with ⟨sid, schema, sidx⟩ | e | -
    · rw [hsch] at h
      dsimp only at h
      exact insertImpl_ok _ _ _ _ _ _ _ h
    · rw [hsch] at h
      exact CacheRes.noConfusion h
    · rw [hsch] at h
      exact CacheRes.noConfusion h
  · intro st key r rec id v v' st' hget hver hlt hupd
    obtain ⟨hbound, hrec⟩ := cacheGet_ok st key id rec hget
    unfold cacheUpdate deleteImpl at hupd
    rw [hget] at hupd
    dsimp only at hupd
    rcases hsch : getSchemaAndIndexes st rec with ⟨sid, schema, sidx⟩ | e | -
    rotate_left
    · rw [hsch] at hupd
      exact CacheRes.noConfusion hupd
    · rw [hsch] at hupd
      exact CacheRes.noConfusion hupd
    rw [hsch] at hupd
    dsimp only at hupd
    rw [LmdbMap.remove_present hrec] at hupd
    dsimp only at hupd
    rcases hdel : deleteIndexes
        { st with record_id_to_record := LmdbMap.eraseKey st.record_id_to_record id }
        rec sid sidx id with - | st2
    · rw [hdel] at hupd
      exact CacheRes.noConfusion hupd
    rw [hdel] at hupd
    dsimp only at hupd
    rw [hver] at hupd
    dsimp only at hupd
    rcases hins : insertImpl st2 { r with version := some ((v + 1) % 2 ^ 32) }
        sid schema sidx with ⟨id2, stf⟩ | e2 | -
    rotate_left
    · rw [hins] at hupd
      exact CacheRes.noConfusion hupd
    · rw [hins] at hupd
      exact CacheRes.noConfusion hupd
    rw [hins] at hupd
    simp only [CacheRes.ok.injEq, Prod.mk.injEq] at hupd
    obtain ⟨rfl, rfl⟩ := hupd
    refine ⟨rfl, id2, ?_⟩
    have hstored := insertImpl_ok _ _ _ _ _ _ _ hins
    have hmod : (v + 1) % 2 ^ 32 = v + 1 := by omega
    rw [hmod] at hstored
    exact hstored

/-- C3: inserting a record whose encoded primary key is already bound to a
live record — the bound record id still holds a record in the record store
— fails with PrimaryKeyExists, for every schema with a non-empty
primary_index. -/
theorem insert_existing_pk_rejected (st : RwCacheState) (r : Record)
    (sid : SchemaIdentifier) (schema : Schema) (sidx : List IndexDefinition)
    (pk : List Nat) (id : Nat) (rec : Record)
    (hsid : r.schema_id = some sid)
    (hschema : LmdbMap.get st.schemas sid = some (schema, sidx))
    (hne : schema.primary_index ≠ [])
    (hpk : getPrimaryKey schema.primary_index r.values = some pk)
    (hbound : LmdbMap.get st.primary_key_to_record_id pk = some id)
    (hlive : LmdbMap.get st.record_id_to_record id = some rec) :
    cacheInsert st r = CacheRes.error CacheError.PrimaryKeyExists := by
  have hsch : getSchemaAndIndexes st r = CacheRes.ok (sid, schema, sidx) := by
    unfold getSchemaAndIndexes
    rw [hsid]
    dsimp only
    rw [hschema]
  have hgen : getOrGenerateId st (some pk) = (id, st) := by
    unfold getOrGenerateId
    dsimp only
    rw [hbound]
  have halloc : allocateId st schema
      ({ r with version := some INITIAL_RECORD_VERSION } : Record).values
      = some (id, st) := by
    unfold allocateId
    dsimp only
    rw [if_neg hne, hpk]
    dsimp only [Option.map]
    rw [hgen]
  have hins : LmdbMap.insert st.record_id_to_record id
      ({ r with version := some INITIAL_RECORD_VERSION } : Record)
      = (st.record_id_to_record, false) := by
    unfold LmdbMap.insert
    rw [hlive]
  unfold cacheInsert
  rw [hsch]
  dsimp only
  unfold insertImpl
  rw [halloc]
  dsimp only
  rw [hins]

theorem OpIdentifier.from_to_bytes (op : OpIdentifier) (h1 : op.txid < 2 ^ 64)
    (h2 : op.seq < 2 ^ 64) :
    OpIdentifier.from_bytes (OpIdentifier.to_bytes op) = op := by
  cases op with
  | mk a b =>
    show OpIdentifier.from_bytes (beBytes8 a ++ beBytes8 b) = ⟨a, b⟩
    have ht : (beBytes8 a ++ beBytes8 b).take 8 = beBytes8 a := rfl
    have hd : (beBytes8 a ++ beBytes8 b).drop 8 = beBytes8 b := rfl
    unfold OpIdentifier.from_bytes
    rw [ht, hd, fromBeNat_beBytes8, fromBeNat_beBytes8]
    simp only [OpIdentifier.mk.injEq]
    constructor
    · exact Nat.mod_eq_of_lt h1
    · exact Nat.mod_eq_of_lt h2

theorem LmdbMap.extend_fresh [DecidableEq κ] :
    ∀ (l : List (κ × ν)) (m : LmdbMap κ ν),
      (∀ p ∈ l, LmdbMap.get m p.1 = none) → (l.map Prod.fst).Nodup →
      LmdbMap.extend m l = m ++ l := by
  intro l
  induction l with
  | nil =>
    intro m _ _
    simp [LmdbMap.extend]
  | cons p t ih =>
    intro m hfresh hnodup
    obtain ⟨k, v⟩ := p
    have hk : LmdbMap.get m k = none := hfresh (k, v) (List.mem_cons_self _ _)
    have hins : LmdbMap.insert m k v = (m ++ [(k, v)], true) := by
      unfold LmdbMap.insert
      rw [hk]
    have hmap : (k :: t.map Prod.fst).Nodup := by simpa using hnodup
    obtain ⟨hkt, hnodup2⟩ := List.nodup_cons.mp hmap
    have hfresh2 : ∀ p ∈ t, LmdbMap.get (m ++ [(k, v)]) p.1 = none := by
      intro q hq
      rw [LmdbMap.get_append, hfresh q (List.mem_cons_of_mem _ hq)]
      have hne : q.1 ≠ k := by
        intro he
        exact hkt (he ▸ List.mem_map_of_mem Prod.fst hq)
      show (if q.1 = k then some v else LmdbMap.get [] q.1) = none
      rw [if_neg hne]
      rfl
    have hrest := ih (m ++ [(k, v)]) hfresh2 hnodup2
    show LmdbMap.extend m ((k, v) :: t) = m ++ (k, v) :: t
    unfold LmdbMap.extend
    simp only [List.foldl_cons]
    rw [hins]
    show LmdbMap.extend (m ++ [(k, v)]) t = m ++ (k, v) :: t
    rw [hrest]
    simp

/-- C4: two consecutive commits leave the checkpoint store holding exactly
the encoded entries of the second checkpoint — independent of the previous
store contents and of the first checkpoint — and get_checkpoint then
returns exactly the second checkpoint. The hypotheses state that the
checkpoint is a map (distinct source handles, as a Rust HashMap guarantees)
of u64 pairs. -/
theorem commit_overwrites_checkpoint (st : RwCacheState) (c1 c2 : SourceStates)
    (hkeys : (c2.map Prod.fst).Nodup)
    (hops : ∀ e ∈ c2, e.2.txid < 2 ^ 64 ∧ e.2.seq < 2 ^ 64) :
    (cacheCommit (cacheCommit st c1) c2).checkpoint_db
      = c2.map (fun e => (e.1, OpIdentifier.to_bytes e.2))
    ∧ getCheckpoint (cacheCommit (cacheCommit st c1) c2) = c2 := by
  have hdb : (cacheCommit (cacheCommit st c1) c2).checkpoint_db
      = c2.map (fun e => (e.1, OpIdentifier.to_bytes e.2)) := by
    show LmdbMap.extend (LmdbMap.clear _)
        (c2.map (fun e => (e.1, OpIdentifier.to_bytes e.2)))
      = c2.map (fun e => (e.1, OpIdentifier.to_bytes e.2))
    rw [LmdbMap.extend_fresh]
    · rfl
    · intro p _
      rfl
    · simpa using hkeys
  refine ⟨hdb, ?_⟩
  unfold getCheckpoint
  rw [hdb, List.map_map]
  clear hdb hkeys
  induction c2 with
  | nil => rfl
  | cons e t ih =>
    obtain ⟨nh, op⟩ := e
    obtain ⟨h1, h2⟩ := hops (nh, op) (List.mem_cons_self _ _)
    simp only [List.map_cons, List.cons.injEq, Function.comp]
    constructor
    · rw [OpIdentifier.from_to_bytes ⟨op.txid, op.seq⟩ h1 h2]
    · exact ih fun q hq => hops q (List.mem_cons_of_mem _ hq)

/-- C8 (amended): when the primary-key map binds a key to a record id that
has no record in the record store, get, delete and update by that key all
return the recoverable error PrimaryKeyNotFound — no fatal abort. (The
aborts of the write path guard different invariants: a removal that fails
right after a successful get, and a stored record without a version.) -/
theorem dangling_pk_is_recoverable (st : RwCacheState) (key : List Nat) (id : Nat)
    (r : Record)
    (hb : LmdbMap.get st.primary_key_to_record_id key = some id)
    (hd : LmdbMap.get st.record_id_to_record id = none) :
    cacheGet st key = CacheRes.error CacheError.PrimaryKeyNotFound
    ∧ cacheDelete st key = CacheRes.error CacheError.PrimaryKeyNotFound
    ∧ cacheUpdate st key r = CacheRes.error CacheError.PrimaryKeyNotFound := by
  have hget : cacheGet st key = CacheRes.error CacheError.PrimaryKeyNotFound := by
    unfold cacheGet
    rw [hb]
    dsimp only
    rw [hd]
  have hdel : deleteImpl st key = CacheRes.error CacheError.PrimaryKeyNotFound := by
    unfold deleteImpl
    rw [hget]
  refine ⟨hget, ?_, ?_⟩
  · unfold cacheDelete
    rw [hdel]
  · unfold cacheUpdate
    rw [hdel]

/-- Concrete schema of the spec scenario S2: one UInt field, primary_index
position 0, schema identifier (1, 1). -/
def wSchema : Schema := ⟨some (1, 1), [0]⟩

/-- Concrete cache state with wSchema registered and the id allocator at
its initial value 1. -/
def wSt0 : RwCacheState := ⟨[((1, 1), (wSchema, []))], [], 1, [], [], []⟩

/-- A record with the single field UInt n under wSchema. -/
def wRec (n : Nat) : Record := ⟨some (1, 1), [Field.UInt n], none⟩

/-- The encoded primary key of wRec 42: tag byte 1, then 42 big-endian. -/
def pk42 : List Nat := [1, 0, 0, 0, 0, 0, 0, 0, 42]

/-- The state after inserting wRec 42 into wSt0. -/
def wSt1 : RwCacheState :=
  match cacheInsert wSt0 (wRec 42) with
  | .ok p => p.2
  | _ => wSt0

/-- The state after updating pk42 to wRec 99 in wSt1. -/
def wSt2 : RwCacheState :=
  match cacheUpdate wSt1 pk42 (wRec 99) with
  | .ok p => p.2
  | _ => wSt1

/-- C2 (witness): in the concrete scenario S2 and S3 — insert UInt 42, then
update it to UInt 99 — the amended theorem yields stored version 1 after
insert, prior version 1 returned by the update, and stored version 2 after
the update. -/
theorem insert_version_one_update_increments_witness :
    LmdbMap.get wSt1.record_id_to_record 1 = some { wRec 42 with version := some 1 }
    ∧ (1 : Nat) = 1
    ∧ ∃ id2, LmdbMap.get wSt2.record_id_to_record id2
        = some { wRec 99 with version := some 2 } :=
  ⟨insert_version_one_update_increments.1 wSt0 (wRec 42) 1 wSt1 (by decide),
   (insert_version_one_update_increments.2 wSt1 pk42 (wRec 99)
      { wRec 42 with version := some 1 } 1 1 1 wSt2 (by decide) (by decide) (by decide)
      (by decide)).1,
   (insert_version_one_update_increments.2 wSt1 pk42 (wRec 99)
      { wRec 42 with version := some 1 } 1 1 1 wSt2 (by decide) (by decide) (by decide)
      (by decide)).2⟩

/-- The concrete state holding wRec 42 under record id 1 with the maximum
u32 version, its primary key bound, the allocator past id 1. -/
def stMax : RwCacheState :=
  ⟨[((1, 1), (wSchema, []))], [(pk42, 1)], 2,
   [(1, { wRec 42 with version := some 4294967295 })], [], []⟩

/-- The state after updating pk42 to wRec 99 in stMax. -/
def stMaxAfter : RwCacheState :=
  match cacheUpdate stMax pk42 (wRec 99) with
  | .ok p => p.2
  | _ => stMax

/-- C2 (counterexample): at stored version 4294967295, the u32 maximum, the
update succeeds and returns that prior version, but the version it stores
is the wrapped 0, not 4294967295 + 1 — the increment is not strict there. -/
theorem update_version_wraps_counterexample :
    cacheUpdate stMax pk42 (wRec 99) = CacheRes.ok (4294967295, stMaxAfter)
    ∧ LmdbMap.get stMaxAfter.record_id_to_record 2
        = some { wRec 99 with version := some 0 }
    ∧ (0 : Nat) ≠ 4294967295 + 1 :=
  ⟨by decide, by decide, by decide⟩

/-- C3 (witness): the duplicate-insert theorem at the state after inserting
UInt 42 — the second insert of scenario S2 is refused. -/
theorem insert_existing_pk_rejected_witness :
    cacheInsert wSt1 (wRec 42) = CacheRes.error CacheError.PrimaryKeyExists :=
  insert_existing_pk_rejected wSt1 (wRec 42) (1, 1) wSchema [] pk42 1
    { wRec 42 with version := some 1 } (by decide) (by decide) (by decide) (by decide)
    (by decide) (by decide)

/-- C4 (witness): the commit-overwrite theorem at the concrete checkpoints
of scenario S6. -/
theorem commit_overwrites_checkpoint_witness :
    (cacheCommit (cacheCommit wSt0 [([1], ⟨1, 2⟩)]) [([2], ⟨3, 4⟩)]).checkpoint_db
      = [([2], OpIdentifier.to_bytes ⟨3, 4⟩)]
    ∧ getCheckpoint (cacheCommit (cacheCommit wSt0 [([1], ⟨1, 2⟩)]) [([2], ⟨3, 4⟩)])
      = [([2], ⟨3, 4⟩)] :=
  commit_overwrites_checkpoint wSt0 [([1], ⟨1, 2⟩)] [([2], ⟨3, 4⟩)] (by decide) (by decide)

/-- The dangling state: primary key [7] bound to record id 3 while the
record store is empty. -/
def stBad : RwCacheState := ⟨[], [([7], 3)], 1, [], [], []⟩

/-- C8 (counterexample): on a state whose primary-key map binds [7] to the
nonexistent record id 3 — the internal-invariant violation the claim is
about — get, delete and update all return the recoverable
PrimaryKeyNotFound error; none of them aborts. -/
theorem dangling_pk_no_abort_counterexample :
    cacheGet stBad [7] = CacheRes.error CacheError.PrimaryKeyNotFound
    ∧ cacheGet stBad [7] ≠ CacheRes.panic
    ∧ cacheDelete stBad [7] = CacheRes.error CacheError.PrimaryKeyNotFound
    ∧ cacheDelete stBad [7] ≠ CacheRes.panic
    ∧ cacheUpdate stBad [7] (wRec 1) = CacheRes.error CacheError.PrimaryKeyNotFound
    ∧ cacheUpdate stBad [7] (wRec 1) ≠ CacheRes.panic :=
  ⟨by decide, by decide, by decide, by decide, by decide, by decide⟩

/-- C8 (witness): the amended theorem applied at the dangling state. -/
theorem dangling_pk_is_recoverable_witness :
    cacheGet stBad [7] = CacheRes.error CacheError.PrimaryKeyNotFound
    ∧ cacheDelete stBad [7] = CacheRes.error CacheError.PrimaryKeyNotFound
    ∧ cacheUpdate stBad [7] (wRec 1) = CacheRes.error CacheError.PrimaryKeyNotFound :=
  dangling_pk_is_recoverable stBad [7] 3 (wRec 1) (by decide) (by decide)

end Dozer
